import Mathlib

/-!
Address resolution of dillsocks, `ip.c`.

A shallow embedding of `src/ip.c` (literal parsing, `iplocal`, `ipremote`
and the accessors) together with the properties of the specification that
are stated about it.

Conventions of the embedding

* A C function that returns `0`, or `-1` with `errno` set, or that dies in
  `dill_assert`, returns a `Res`: `ok`, `err e` or `fatal`.
* The out-parameter `ipaddr *addr` (always pointing at caller storage) is
  returned as the value carried by `ok`.  The record keeps the three fields
  that `ip.c` reads or writes: the family tag, the port field as stored
  (network byte order) and the address bytes.
* Named constants of the system headers and of `dillsocks.h` (address
  families, `errno` values, `IPADDR_*` modes) are kept symbolic.
* Functions of the C library (`inet_pton`, `inet_ntop`, byte order), the
  interface list returned by `getifaddrs` and the outcomes of the DNS and
  descriptor-wait collaborators are inputs of the embedding.
* `iplocal` is the build without `__sun` (the one that enumerates
  interfaces).
-/

namespace Dillsocks

/-! ## Data model -/

/-- Values of `errno` that `ip.c` sets or tests; `other` is any other value. -/
inductive Errno where
  | EINVAL
  | ENODEV
  | EADDRNOTAVAIL
  | ETIMEDOUT
  | other (n : Nat)
  deriving DecidableEq

/-- Modelled from the spec: `dill_assert` is a macro of `utils.h`, which is
not among the sources; by section 7 of the specification a failed assertion
is fatal and ends the process instead of returning.  Outcome of a call:
`return 0` with the filled record (`ok`), `return -1` with `errno` (`err`),
or a failed `dill_assert` (`fatal`). -/
inductive Res (α : Type) where
  | ok (a : α)
  | err (e : Errno)
  | fatal
  deriving DecidableEq

/-- The `sa_family` tag; `other` is any family that is neither `AF_INET`
nor `AF_INET6` (for instance `AF_PACKET` entries of `getifaddrs`). -/
inductive SaFamily where
  | AF_INET
  | AF_INET6
  | other (n : Nat)
  deriving DecidableEq

/-- Modelled from the spec: the constants `IPADDR_IPV4`, `IPADDR_IPV6`,
`IPADDR_PREF_IPV4`, `IPADDR_PREF_IPV6` are declared in `dillsocks.h`, which
is not among the sources; with the value `0` they are the five modes of
section 3 of the specification.  The `int mode` argument is given by the
cases the switches of `ip.c` distinguish: `zero` is the value `0`, then the
four constants (pairwise distinct and non-zero, being labels of one switch
next to `case 0`), and `other` is any value that reaches `default`. -/
inductive Mode where
  | zero
  | IPADDR_IPV4
  | IPADDR_IPV6
  | IPADDR_PREF_IPV4
  | IPADDR_PREF_IPV6
  | other
  deriving DecidableEq

/-- Modelled from the spec: the type `ipaddr` is declared in `dillsocks.h`,
which is not among the sources; by section 3 of the specification it holds
an IPv4 or IPv6 socket address (family tag, 16-bit port in network byte
order, and a 4-byte or 16-byte address).  The record is that storage, and
the one behind a `struct sockaddr`, seen through `sockaddr_in` or
`sockaddr_in6`: the family tag, the port field as it is stored, and the
bytes of `sin_addr` / `sin6_addr`. -/
structure ipaddr where
  sa_family : SaFamily
  port : Nat
  addr : List Nat
  deriving DecidableEq

/-- One element of the list built by `getifaddrs`; `ifa_addr = none` is a
null `ifa_addr` pointer. -/
structure ifaddrs where
  ifa_name : String
  ifa_addr : Option ipaddr
  deriving DecidableEq

/-- What `getifaddrs(&ifaces)` gave: its return code and the list left in
`ifaces` (the empty list is a null pointer). -/
structure Ifconf where
  rc : Int
  ifaces : List ifaddrs
  deriving DecidableEq

/-- A `struct addrinfo` produced by `dns_ai_nextent`. -/
structure addrinfo where
  ai_family : SaFamily
  ai_addr : ipaddr
  deriving DecidableEq

/-- The C library as used by `ip.c`.  `inet_pton af src` gives the return
code and the bytes stored in `dst`; `inet_ntop af bytes` gives the text
written to the buffer (`none` for a null return); `littleEndian` is the
byte order of the host, which fixes `htons` and `ntohs`. -/
structure Libc where
  littleEndian : Bool
  inet_pton : SaFamily → String → Int × List Nat
  inet_ntop : SaFamily → List Nat → Option String

/-- Conversion of an `int` to `uint16_t`. -/
def uint16 (x : Int) : Nat := (x % 65536).toNat

/-- Exchange of the two bytes of a 16-bit value. -/
def bswap16 (x : Nat) : Nat := (x % 256) * 256 + (x / 256) % 256

/-- The libc `htons` on a 16-bit value. -/
def htons (L : Libc) (x : Nat) : Nat :=
  if L.littleEndian then bswap16 (x % 65536) else x % 65536

/-- The libc `ntohs` on a 16-bit value. -/
def ntohs (L : Libc) (x : Nat) : Nat :=
  if L.littleEndian then bswap16 (x % 65536) else x % 65536

/-- The four zero bytes of `htonl(INADDR_ANY)`. -/
def INADDR_ANY : List Nat := List.replicate 4 0

/-- The sixteen zero bytes of `in6addr_any`. -/
def in6addr_any : List Nat := List.replicate 16 0

/-! ## Literal parsing and wildcard (`ip.c` lines 56-123) -/

/-- Embedding of `dill_ipany`. -/
def dill_ipany (L : Libc) (port : Int) (mode : Mode) : Res ipaddr :=
  if port < 0 ∨ port > 0xffff then .err .EINVAL
  else if mode = .zero ∨ mode = .IPADDR_IPV4 ∨ mode = .IPADDR_PREF_IPV4 then
    .ok { sa_family := .AF_INET, addr := INADDR_ANY, port := htons L (uint16 port) }
  else
    .ok { sa_family := .AF_INET6, addr := in6addr_any, port := htons L (uint16 port) }

/-- Embedding of `dill_ipv4_literal`. -/
def dill_ipv4_literal (L : Libc) (name : String) (port : Int) : Res ipaddr :=
  let r := L.inet_pton .AF_INET name
  if ¬ (r.1 ≥ 0) then .fatal
  else if r.1 ≠ 1 then .err .EINVAL
  else .ok { sa_family := .AF_INET, addr := r.2, port := htons L (uint16 port) }

/-- Embedding of `dill_ipv6_literal`. -/
def dill_ipv6_literal (L : Libc) (name : String) (port : Int) : Res ipaddr :=
  let r := L.inet_pton .AF_INET6 name
  if ¬ (r.1 ≥ 0) then .fatal
  else if r.1 ≠ 1 then .err .EINVAL
  else .ok { sa_family := .AF_INET6, addr := r.2, port := htons L (uint16 port) }

/-- Embedding of `dill_ipliteral`.  In the two preference modes the second
parser runs whenever the first did not return `0`; a failed assertion of
the first never returns. -/
def dill_ipliteral (L : Libc) (name : String) (port : Int) (mode : Mode) : Res ipaddr :=
  if port < 0 ∨ port > 0xffff then .err .EINVAL
  else match mode with
    | .IPADDR_IPV4 => dill_ipv4_literal L name port
    | .IPADDR_IPV6 => dill_ipv6_literal L name port
    | .zero | .IPADDR_PREF_IPV4 =>
      match dill_ipv4_literal L name port with
      | .ok a => .ok a
      | .fatal => .fatal
      | .err _ => dill_ipv6_literal L name port
    | .IPADDR_PREF_IPV6 =>
      match dill_ipv6_literal L name port with
      | .ok a => .ok a
      | .fatal => .fatal
      | .err _ => dill_ipv4_literal L name port
    | .other => .fatal

/-! ## Accessors (`ip.c` lines 125-154) -/

/-- Embedding of `ipfamily`. -/
def ipfamily (addr : ipaddr) : SaFamily := addr.sa_family

/-- Embedding of `ipport`; `sin_port` and `sin6_port` are the same stored
field of the record. -/
def ipport (L : Libc) (addr : ipaddr) : Nat :=
  ntohs L (if ipfamily addr = .AF_INET then addr.port else addr.port)

/-- Embedding of `ipaddrstr`. -/
def ipaddrstr (L : Libc) (addr : ipaddr) : Option String :=
  if ipfamily addr = .AF_INET then L.inet_ntop .AF_INET addr.addr
  else L.inet_ntop .AF_INET6 addr.addr

/-! ## `iplocal` (`ip.c` lines 156-230) -/

/-- The `for` loop of `iplocal` over the interface list, started with the
current values of `ipv4` and `ipv6`.  The result is `none` when one of the
two assertions `dill_assert(!ipv4)`, `dill_assert(!ipv6)` fails, and the
values of `ipv4` and `ipv6` on leaving the loop otherwise. -/
def iplocal_scan (name : String) :
    List ifaddrs → Option ifaddrs → Option ifaddrs → Option (Option ifaddrs × Option ifaddrs)
  | [], ipv4, ipv6 => some (ipv4, ipv6)
  | it :: next, ipv4, ipv6 =>
    match it.ifa_addr with
    | none => iplocal_scan name next ipv4 ipv6
    | some sa =>
      if it.ifa_name ≠ name then iplocal_scan name next ipv4 ipv6
      else
        let upd : Option (Option ifaddrs × Option ifaddrs) :=
          match sa.sa_family with
          | .AF_INET => if ipv4.isSome then none else some (some it, ipv6)
          | .AF_INET6 => if ipv6.isSome then none else some (ipv4, some it)
          | .other _ => some (ipv4, ipv6)
        match upd with
        | none => none
        | some (ipv4, ipv6) =>
          if ipv4.isSome ∧ ipv6.isSome then some (ipv4, ipv6)
          else iplocal_scan name next ipv4 ipv6

/-- The part of `iplocal` after the loop (lines 192-228): the switch on
`mode`, then the chain `if(ipv4) … if(ipv6) … ENODEV`.  `memcpy` takes the
interface address as it is and the port field is overwritten.  A
candidate stored by the loop always has a non-null `ifa_addr`; reading a
null one would be a crash, given here as `fatal`. -/
def iplocal_choose (L : Libc) (port : Int) (mode : Mode)
    (ipv4 ipv6 : Option ifaddrs) : Res ipaddr :=
  let kept : Option (Option ifaddrs × Option ifaddrs) :=
    match mode with
    | .IPADDR_IPV4 => some (ipv4, none)
    | .IPADDR_IPV6 => some (none, ipv6)
    | .zero | .IPADDR_PREF_IPV4 => if ipv4.isSome then some (ipv4, none) else some (ipv4, ipv6)
    | .IPADDR_PREF_IPV6 => if ipv6.isSome then some (none, ipv6) else some (ipv4, ipv6)
    | .other => none
  match kept with
  | none => .fatal
  | some (some i4, _) =>
    match i4.ifa_addr with
    | some sa => .ok { sa with port := htons L (uint16 port) }
    | none => .fatal
  | some (none, some i6) =>
    match i6.ifa_addr with
    | some sa => .ok { sa with port := htons L (uint16 port) }
    | none => .fatal
  | some (none, none) => .err .ENODEV

/-- Embedding of `iplocal`; `name = none` is a null `name`, `os` is what
`getifaddrs` returns on the host. -/
def iplocal (L : Libc) (os : Ifconf) (name : Option String) (port : Int) (mode : Mode) :
    Res ipaddr :=
  match name with
  | none => dill_ipany L port mode
  | some name =>
    match dill_ipliteral L name port mode with
    | .ok a => .ok a
    | .fatal => .fatal
    | .err _ =>
      if os.rc ≠ 0 then .fatal
      else if os.ifaces = [] then .fatal
      else
        match iplocal_scan name os.ifaces none none with
        | none => .fatal
        | some (ipv4, ipv6) => iplocal_choose L port mode ipv4 ipv6

/-! ## `ipremote` (`ip.c` lines 232-324) -/

/-- Calls of the DNS library and of the descriptor-wait primitives made by
`ipremote`, in the order they are made. -/
inductive Event where
  | dns_resconf_local
  | dns_hosts_local
  | dns_hints_local
  | dns_res_open
  | dns_ai_open
  | dns_res_close
  | dns_ai_nextent
  | dns_ai_pollfd
  | fdin (fd : Int) (deadline : Int)
  | fdclean (fd : Int)
  | dns_ai_close
  deriving DecidableEq

/-- Process state seen by `ipremote`: whether each of the three static
handles `dill_dns_conf`, `dill_dns_hosts`, `dill_dns_hints` is non-null,
and the calls made so far. -/
structure World where
  dill_dns_conf : Bool
  dill_dns_hosts : Bool
  dill_dns_hints : Bool
  trace : List Event
  deriving DecidableEq

/-- Record one more call. -/
def World.log (w : World) (e : Event) : World := { w with trace := w.trace ++ [e] }

/-- What one turn of the `while(1)` loop gets from its collaborators.
`eagain fd rc errno`: `dns_ai_nextent` returns `EAGAIN`, `dns_ai_pollfd`
returns `fd`, and `fdin` returns `rc` leaving `errno`.  `enoent`:
`dns_ai_nextent` returns `ENOENT`.  `entry it`: any other return code, with
`it` as the call left it (`none` is a null pointer). -/
inductive NextEnt where
  | eagain (fd : Int) (rc : Int) (errno : Errno)
  | enoent
  | entry (it : Option addrinfo)
  deriving DecidableEq

/-- Outcomes of the DNS collaborator during one call of `ipremote`: whether
each constructor returns a non-null object, and the successive outcomes of
the loop turns. -/
structure Dns where
  resconf_local : Bool
  hosts_local : Bool
  hints_local : Bool
  res_open : Bool
  ai_open : Bool
  script : List NextEnt

/-- How the `while(1)` loop of `ipremote` is left. -/
inductive Loop where
  | done (ipv4 ipv6 : Option addrinfo)
  | ret (r : Res ipaddr)
  deriving DecidableEq

/-- The `while(1)` loop of `ipremote` (lines 264-287), one list element per
turn.  The result is `none` when the listed outcomes end before the loop
is left. -/
def ipremote_loop (deadline : Int) :
    List NextEnt → Option addrinfo → Option addrinfo → World → Option (Loop × World)
  | [], _, _, _ => none
  | o :: rest, ipv4, ipv6, w =>
    let w := w.log .dns_ai_nextent
    match o with
    | .eagain fd rc errno =>
      let w := w.log .dns_ai_pollfd
      if ¬ (fd ≥ 0) then some (.ret .fatal, w)
      else
        let w := w.log (.fdin fd deadline)
        let w := w.log (.fdclean fd)
        if rc < 0 ∧ errno = .ETIMEDOUT then some (.ret (.err .ETIMEDOUT), w)
        else if ¬ (rc = 0) then some (.ret .fatal, w)
        else ipremote_loop deadline rest ipv4 ipv6 w
    | .enoent => some (.done ipv4 ipv6, w)
    | .entry it =>
      let ipv4 :=
        if ipv4.isNone ∧ it.isSome ∧ it.map addrinfo.ai_family = some .AF_INET then it else ipv4
      let ipv6 :=
        if ipv6.isNone ∧ it.isSome ∧ it.map addrinfo.ai_family = some .AF_INET6 then it else ipv6
      if ipv4.isSome ∧ ipv6.isSome then some (.done ipv4 ipv6, w)
      else ipremote_loop deadline rest ipv4 ipv6 w

/-- The part of `ipremote` after the loop (lines 288-323): the switch on
`mode`, then the chain `if(ipv4) … if(ipv6) … EADDRNOTAVAIL`, each return
preceded by `dns_ai_close`. -/
def ipremote_choose (L : Libc) (port : Int) (mode : Mode)
    (ipv4 ipv6 : Option addrinfo) (w : World) : Res ipaddr × World :=
  let kept : Option (Option addrinfo × Option addrinfo) :=
    match mode with
    | .IPADDR_IPV4 => some (ipv4, none)
    | .IPADDR_IPV6 => some (none, ipv6)
    | .zero | .IPADDR_PREF_IPV4 => if ipv4.isSome then some (ipv4, none) else some (ipv4, ipv6)
    | .IPADDR_PREF_IPV6 => if ipv6.isSome then some (none, ipv6) else some (ipv4, ipv6)
    | .other => none
  match kept with
  | none => (.fatal, w)
  | some (some e4, _) =>
    (.ok { e4.ai_addr with port := htons L (uint16 port) }, w.log .dns_ai_close)
  | some (none, some e6) =>
    (.ok { e6.ai_addr with port := htons L (uint16 port) }, w.log .dns_ai_close)
  | some (none, none) => (.err .EADDRNOTAVAIL, w.log .dns_ai_close)

/-- The lazy load of the DNS configuration (lines 238-246): the flag tells
whether the three assertions held. -/
def ipremote_conf (D : Dns) (w : World) : Bool × World :=
  if w.dill_dns_conf then (true, w)
  else
    let w1 : World := { w.log .dns_resconf_local with dill_dns_conf := D.resconf_local }
    if w1.dill_dns_conf = false then (false, w1)
    else
      let w2 : World := { w1.log .dns_hosts_local with dill_dns_hosts := D.hosts_local }
      if w2.dill_dns_hosts = false then (false, w2)
      else
        let w3 : World := { w2.log .dns_hints_local with dill_dns_hints := D.hints_local }
        if w3.dill_dns_hints = false then (false, w3)
        else (true, w3)

/-- Embedding of `ipremote`: the outcome of the call and the process state
it leaves.  The result is `none` when the listed loop outcomes `D.script`
end before the loop is left. -/
def ipremote (L : Libc) (D : Dns) (w : World) (name : String) (port : Int) (mode : Mode)
    (deadline : Int) : Option (Res ipaddr × World) :=
  match dill_ipliteral L name port mode with
  | .ok a => some (.ok a, w)
  | .fatal => some (.fatal, w)
  | .err _ =>
    match ipremote_conf D w with
    | (false, w) => some (.fatal, w)
    | (true, w) =>
      let w := w.log .dns_res_open
      if D.res_open = false then some (.fatal, w)
      else if ¬ (port ≥ 0 ∧ port ≤ 0xffff) then some (.fatal, w)
      else
        let w := w.log .dns_ai_open
        if D.ai_open = false then some (.fatal, w)
        else
          let w := w.log .dns_res_close
          match ipremote_loop deadline D.script none none w with
          | none => none
          | some (.ret r, w) => some (r, w)
          | some (.done ipv4 ipv6, w) => some (ipremote_choose L port mode ipv4 ipv6 w)

/-! ## The policy of the specification -/

/-- The two families a resolver can keep (specification, section 4.2). -/
inductive Family where
  | IPv4
  | IPv6
  deriving DecidableEq

/-- The enumeration `ResolutionMode` of the specification (section 3). -/
inductive ResolutionMode where
  | Unspecified
  | IPv4Only
  | IPv6Only
  | PreferIPv4
  | PreferIPv6
  deriving DecidableEq

/-- The value of the `int mode` argument that stands for each
`ResolutionMode`: `0`, `IPADDR_IPV4`, `IPADDR_IPV6`, `IPADDR_PREF_IPV4`,
`IPADDR_PREF_IPV6`. -/
def ResolutionMode.toMode : ResolutionMode → Mode
  | .Unspecified => .zero
  | .IPv4Only => .IPADDR_IPV4
  | .IPv6Only => .IPADDR_IPV6
  | .PreferIPv4 => .IPADDR_PREF_IPV4
  | .PreferIPv6 => .IPADDR_PREF_IPV6

/-- The table of section 4.2 of the specification, written from its words:
which family is kept, given which candidates exist. -/
def FamilyPreferencePolicy (haveIPv4 haveIPv6 : Bool) : ResolutionMode → Option Family
  | .IPv4Only => if haveIPv4 then some .IPv4 else none
  | .IPv6Only => if haveIPv6 then some .IPv6 else none
  | .Unspecified | .PreferIPv4 =>
    if haveIPv4 then some .IPv4 else if haveIPv6 then some .IPv6 else none
  | .PreferIPv6 =>
    if haveIPv6 then some .IPv6 else if haveIPv4 then some .IPv4 else none

/-- The families whose literal syntax is tried under a mode, in the order
of section 4.3 of the specification. -/
def attempted : Mode → List SaFamily
  | .IPADDR_IPV4 => [.AF_INET]
  | .IPADDR_IPV6 => [.AF_INET6]
  | .zero | .IPADDR_PREF_IPV4 => [.AF_INET, .AF_INET6]
  | .IPADDR_PREF_IPV6 => [.AF_INET6, .AF_INET]
  | .other => []

/-- The first attempted family whose `inet_pton` accepts `name`. -/
def acceptingFamily (L : Libc) (name : String) (mode : Mode) : Option SaFamily :=
  (attempted mode).find? (fun f => decide ((L.inet_pton f name).1 = 1))

/-- The family of the address of an interface entry, if it has one. -/
def ifaddrs.family (e : ifaddrs) : Option SaFamily := e.ifa_addr.map ipaddr.sa_family

/-- An entry named `name` that has a non-null address of family `fam`. -/
def isCandidate (name : String) (fam : SaFamily) (e : ifaddrs) : Bool :=
  decide (e.ifa_name = name) && decide (e.family = some fam)

/-- An entry named `name` that has a non-null IPv4 or IPv6 address. -/
def isInetCandidate (name : String) (e : ifaddrs) : Bool :=
  isCandidate name .AF_INET e || isCandidate name .AF_INET6 e

/-- The first entry of family `fam` in a sequence of loop outcomes. -/
def firstEntry (fam : SaFamily) : List NextEnt → Option addrinfo
  | [] => none
  | .entry (some e) :: rest => if e.ai_family = fam then some e else firstEntry fam rest
  | _ :: rest => firstEntry fam rest

/-- A loop outcome after which the query goes on: an entry, or a
would-block whose descriptor is valid and whose wait succeeds. -/
def goesOn : NextEnt → Bool
  | .entry _ => true
  | .eagain fd rc _ => decide (fd ≥ 0) && decide (rc = 0)
  | .enoent => false

/-- How many times the call `e` has been made. -/
def World.calls (w : World) (e : Event) : Nat := w.trace.count e

/-! ## A concrete C library for the examples -/

/-- Reader of dotted-quad text in the manner of `inet_pton(AF_INET, …)`:
`cur` is the octet being read (`none` right after a dot or at the start),
`acc` the octets already closed.  Four decimal octets of at most 255, no
leading zero, no empty octet. -/
def dottedQuad : List Char → Option Nat → List Nat → Option (List Nat)
  | [], some n, acc => if acc.length = 3 then some (acc ++ [n]) else none
  | [], none, _ => none
  | c :: cs, cur, acc =>
    if c = '.' then
      match cur with
      | some n => if acc.length < 3 then dottedQuad cs none (acc ++ [n]) else none
      | none => none
    else if '0' ≤ c ∧ c ≤ '9' then
      let d := c.toNat - '0'.toNat
      match cur with
      | none => dottedQuad cs (some d) acc
      | some n =>
        if n = 0 then none
        else if n * 10 + d > 255 then none
        else dottedQuad cs (some (n * 10 + d)) acc
    else none

/-- Decimal text of an octet. -/
def octetText (n : Nat) : String :=
  let digit (k : Nat) : Char := Char.ofNat ('0'.toNat + k % 10)
  if n < 10 then String.mk [digit n]
  else if n < 100 then String.mk [digit (n / 10), digit n]
  else String.mk [digit (n / 100), digit (n / 10), digit n]

/-- A C library to run the examples with, on a little-endian host.
`inet_pton` reads dotted quads for `AF_INET`; for `AF_INET6` it knows the
two literals `::` and `::1`, which is all the examples use, and answers `0`
otherwise.  `inet_ntop` is the inverse on those addresses. -/
def sampleLibc : Libc where
  littleEndian := true
  inet_pton := fun af src =>
    match af with
    | .AF_INET =>
      match dottedQuad src.data none [] with
      | some bytes => (1, bytes)
      | none => (0, [])
    | .AF_INET6 =>
      if src = "::" then (1, List.replicate 16 0)
      else if src = "::1" then (1, List.replicate 15 0 ++ [1])
      else (0, [])
    | .other _ => (-1, [])
  inet_ntop := fun af bytes =>
    match af, bytes with
    | .AF_INET, [a, b, c, d] =>
      some (octetText a ++ "." ++ octetText b ++ "." ++ octetText c ++ "." ++ octetText d)
    | .AF_INET6, _ =>
      if bytes = List.replicate 16 0 then some "::"
      else if bytes = List.replicate 15 0 ++ [1] then some "::1"
      else none
    | _, _ => none

/-- A host with a loopback interface and an interface `eth0` that has one
IPv4 and one IPv6 address. -/
def sampleIfconf : Ifconf where
  rc := 0
  ifaces :=
    [ { ifa_name := "lo", ifa_addr := some { sa_family := .AF_INET, port := 0, addr := [127, 0, 0, 1] } },
      { ifa_name := "eth0", ifa_addr := some { sa_family := .other 17, port := 0, addr := [] } },
      { ifa_name := "eth0", ifa_addr := some { sa_family := .AF_INET, port := 0, addr := [10, 0, 0, 2] } },
      { ifa_name := "eth0",
        ifa_addr := some { sa_family := .AF_INET6, port := 0,
                           addr := [254, 128, 0, 0, 0, 0, 0, 0, 0, 0, 0, 0, 0, 0, 0, 2] } } ]

/-- A host whose interface `eth0` has an IPv4 address, then an IPv6
address, then a second IPv4 address. -/
def twoInetIfconf : Ifconf where
  rc := 0
  ifaces :=
    [ { ifa_name := "eth0", ifa_addr := some { sa_family := .AF_INET, port := 0, addr := [10, 0, 0, 2] } },
      { ifa_name := "eth0",
        ifa_addr := some { sa_family := .AF_INET6, port := 0,
                           addr := [254, 128, 0, 0, 0, 0, 0, 0, 0, 0, 0, 0, 0, 0, 0, 2] } },
      { ifa_name := "eth0", ifa_addr := some { sa_family := .AF_INET, port := 0, addr := [10, 0, 0, 3] } } ]

/-- A host whose interface `eth0` has two IPv4 addresses, listed one after
the other. -/
def twoInet4Ifconf : Ifconf where
  rc := 0
  ifaces :=
    [ { ifa_name := "lo", ifa_addr := some { sa_family := .AF_INET, port := 0, addr := [127, 0, 0, 1] } },
      { ifa_name := "eth0", ifa_addr := some { sa_family := .AF_INET, port := 0, addr := [10, 0, 0, 2] } },
      { ifa_name := "eth0", ifa_addr := some { sa_family := .AF_INET, port := 0, addr := [10, 0, 0, 3] } } ]

/-- Outcomes of a query that would block once, then yields an IPv6 entry,
two IPv4 entries and the end of the entries. -/
def sampleScript : List NextEnt :=
  [ .eagain 5 0 (.other 0),
    .entry (some { ai_family := .AF_INET6,
                   ai_addr := { sa_family := .AF_INET6, port := htons sampleLibc 443,
                                addr := [38, 6, 40, 0, 2, 32, 0, 1, 2, 72, 24, 147, 37, 200, 25, 70] } }),
    .entry (some { ai_family := .AF_INET,
                   ai_addr := { sa_family := .AF_INET, port := 0, addr := [93, 184, 216, 34] } }),
    .entry (some { ai_family := .AF_INET,
                   ai_addr := { sa_family := .AF_INET, port := 0, addr := [93, 184, 216, 35] } }) ]

/-- A process that has not loaded the DNS configuration and made no call. -/
def freshWorld : World where
  dill_dns_conf := false
  dill_dns_hosts := false
  dill_dns_hints := false
  trace := []

/-- A DNS collaborator whose constructors all succeed and whose query
yields the given loop outcomes. -/
def sampleDns (script : List NextEnt) : Dns where
  resconf_local := true
  hosts_local := true
  hints_local := true
  res_open := true
  ai_open := true
  script := script

/-! ## Byte order -/

theorem bswap16_bswap16 (x : Nat) (h : x < 65536) : bswap16 (bswap16 x % 65536) = x := by
  unfold bswap16
  have h1 : x / 256 % 256 = x / 256 := by omega
  rw [h1]
  have h2 : (x % 256 * 256 + x / 256) % 65536 = x % 256 * 256 + x / 256 := by omega
  rw [h2]
  have h3 : (x % 256 * 256 + x / 256) % 256 = x / 256 := by omega
  have h4 : (x % 256 * 256 + x / 256) / 256 = x % 256 := by omega
  rw [h3, h4]
  omega

theorem ntohs_htons (L : Libc) (x : Nat) : ntohs L (htons L x) = x % 65536 := by
  unfold ntohs htons
  cases L.littleEndian
  · simp
  · simp only [if_true]
    exact bswap16_bswap16 _ (Nat.mod_lt _ (by decide))

theorem uint16_of_range (port : Int) (h0 : 0 ≤ port) (h1 : port ≤ 65535) :
    ((uint16 port : Nat) : Int) = port ∧ uint16 port < 65536 := by
  unfold uint16
  omega

theorem ipport_stored (L : Libc) (port : Int) (h0 : 0 ≤ port) (h1 : port ≤ 65535)
    (a : ipaddr) (h : a.port = htons L (uint16 port)) : (ipport L a : Int) = port := by
  obtain ⟨hc, hlt⟩ := uint16_of_range port h0 h1
  unfold ipport
  rw [ite_self, h, ntohs_htons, Nat.mod_eq_of_lt hlt]
  exact hc

/-! ## The literal parser -/

theorem dill_ipliteral_bad_port (L : Libc) (name : String) (port : Int) (mode : Mode)
    (h : port < 0 ∨ port > 65535) : dill_ipliteral L name port mode = .err .EINVAL := by
  unfold dill_ipliteral
  simp [h]

theorem dill_ipv4_literal_ok (L : Libc) (name : String) (port : Int) (a : ipaddr)
    (h : dill_ipv4_literal L name port = .ok a) :
    (L.inet_pton .AF_INET name).1 = 1 ∧
      a = { sa_family := .AF_INET, addr := (L.inet_pton .AF_INET name).2,
            port := htons L (uint16 port) } := by
  unfold dill_ipv4_literal at h
  simp only at h
  split_ifs at h with h1 h2
  simp only [Res.ok.injEq] at h
  exact ⟨by simpa using h2, h.symm⟩

theorem dill_ipv6_literal_ok (L : Libc) (name : String) (port : Int) (a : ipaddr)
    (h : dill_ipv6_literal L name port = .ok a) :
    (L.inet_pton .AF_INET6 name).1 = 1 ∧
      a = { sa_family := .AF_INET6, addr := (L.inet_pton .AF_INET6 name).2,
            port := htons L (uint16 port) } := by
  unfold dill_ipv6_literal at h
  simp only at h
  split_ifs at h with h1 h2
  simp only [Res.ok.injEq] at h
  exact ⟨by simpa using h2, h.symm⟩

theorem dill_ipv4_literal_err (L : Libc) (name : String) (port : Int) (e : Errno)
    (h : dill_ipv4_literal L name port = .err e) : (L.inet_pton .AF_INET name).1 ≠ 1 := by
  unfold dill_ipv4_literal at h
  simp only at h
  split_ifs at h with h1 h2
  exact h2

theorem dill_ipv6_literal_err (L : Libc) (name : String) (port : Int) (e : Errno)
    (h : dill_ipv6_literal L name port = .err e) : (L.inet_pton .AF_INET6 name).1 ≠ 1 := by
  unfold dill_ipv6_literal at h
  simp only at h
  split_ifs at h with h1 h2
  exact h2

/-- What an accepted literal looks like: the port is in range, the family
is the first attempted one that `inet_pton` accepts, the address is what
`inet_pton` stored for it, and the port field is `htons` of the port. -/
theorem dill_ipliteral_ok (L : Libc) (name : String) (port : Int) (mode : Mode) (a : ipaddr)
    (h : dill_ipliteral L name port mode = .ok a) :
    (0 ≤ port ∧ port ≤ 65535) ∧ acceptingFamily L name mode = some a.sa_family ∧
      a.addr = (L.inet_pton a.sa_family name).2 ∧ a.port = htons L (uint16 port) := by
  unfold dill_ipliteral at h
  split_ifs at h with hp
  refine ⟨by omega, ?_⟩
  cases mode with
  | zero =>
    simp only at h
    cases h4 : dill_ipv4_literal L name port with
    | ok b =>
      rw [h4] at h
      simp only [Res.ok.injEq] at h
      subst h
      obtain ⟨r, rfl⟩ := dill_ipv4_literal_ok L name port b h4
      simp [acceptingFamily, attempted, r]
    | fatal => rw [h4] at h; simp at h
    | err e =>
      rw [h4] at h
      simp only at h
      have r4 := dill_ipv4_literal_err L name port e h4
      obtain ⟨r, rfl⟩ := dill_ipv6_literal_ok L name port a h
      simp [acceptingFamily, attempted, r, r4]
  | IPADDR_PREF_IPV4 =>
    simp only at h
    cases h4 : dill_ipv4_literal L name port with
    | ok b =>
      rw [h4] at h
      simp only [Res.ok.injEq] at h
      subst h
      obtain ⟨r, rfl⟩ := dill_ipv4_literal_ok L name port b h4
      simp [acceptingFamily, attempted, r]
    | fatal => rw [h4] at h; simp at h
    | err e =>
      rw [h4] at h
      simp only at h
      have r4 := dill_ipv4_literal_err L name port e h4
      obtain ⟨r, rfl⟩ := dill_ipv6_literal_ok L name port a h
      simp [acceptingFamily, attempted, r, r4]
  | IPADDR_PREF_IPV6 =>
    simp only at h
    cases h6 : dill_ipv6_literal L name port with
    | ok b =>
      rw [h6] at h
      simp only [Res.ok.injEq] at h
      subst h
      obtain ⟨r, rfl⟩ := dill_ipv6_literal_ok L name port b h6
      simp [acceptingFamily, attempted, r]
    | fatal => rw [h6] at h; simp at h
    | err e =>
      rw [h6] at h
      simp only at h
      have r6 := dill_ipv6_literal_err L name port e h6
      obtain ⟨r, rfl⟩ := dill_ipv4_literal_ok L name port a h
      simp [acceptingFamily, attempted, r, r6]
  | IPADDR_IPV4 =>
    simp only at h
    obtain ⟨r, rfl⟩ := dill_ipv4_literal_ok L name port a h
    simp [acceptingFamily, attempted, r]
  | IPADDR_IPV6 =>
    simp only at h
    obtain ⟨r, rfl⟩ := dill_ipv6_literal_ok L name port a h
    simp [acceptingFamily, attempted, r]
  | other => simp at h

/-! ## Ports out of range -/

/-- C2, evaluated on the code: `iplocal("127.0.0.1", 70000, 0)` on a host
whose interfaces are `lo` and `eth0` does not fail with `EINVAL`; the
rejected port is taken for a name that is no literal, the interface scan
runs and the call fails with `ENODEV`. -/
theorem iplocal_bad_port_named :
    iplocal sampleLibc sampleIfconf (some "127.0.0.1") 70000 .zero = .err .ENODEV := by
  decide

/-- With a null name the same port is rejected with `EINVAL`, whatever the
mode and the interfaces. -/
theorem iplocal_bad_port_absent (L : Libc) (os : Ifconf) (port : Int) (mode : Mode)
    (h : port < 0 ∨ port > 65535) : iplocal L os none port mode = .err .EINVAL := by
  simp [iplocal, dill_ipany, h]

/-- With a name that is an interface of the host, a port out of range is
accepted and stored reduced modulo 65536. -/
theorem iplocal_bad_port_interface :
    iplocal sampleLibc sampleIfconf (some "eth0") 70000 .zero =
      .ok { sa_family := .AF_INET, port := htons sampleLibc 4464, addr := [10, 0, 0, 2] } := by
  decide

/-- With a name given and a port out of range, `iplocal` never fails with
`EINVAL`, on any host and for any name: it aborts, fails with `ENODEV` or
succeeds. -/
theorem iplocal_bad_port_never_einval (L : Libc) (os : Ifconf) (name : String) (port : Int)
    (mode : Mode) (h : port < 0 ∨ port > 65535) :
    iplocal L os (some name) port mode ≠ .err .EINVAL := by
  have hl := dill_ipliteral_bad_port L name port mode h
  have hc : ∀ ipv4 ipv6, iplocal_choose L port mode ipv4 ipv6 ≠ .err .EINVAL := by
    intro ipv4 ipv6
    unfold iplocal_choose
    rcases ipv4 with _ | ⟨_, _ | _⟩ <;> rcases ipv6 with _ | ⟨_, _ | _⟩ <;> cases mode <;> simp
  unfold iplocal
  simp only
  rw [hl]
  simp only
  split_ifs
  · simp
  · simp
  · cases hs : iplocal_scan name os.ifaces none none with
    | none => simp
    | some c => exact hc c.1 c.2

/-- C3, evaluated on the code: `ipremote("93.184.216.34", 70000, 0, 0)` with
a DNS library whose constructors all succeed does not fail with `EINVAL`;
the `EINVAL` of the literal parser is taken for a name that is no literal,
the DNS configuration is loaded, a resolver is opened, and the call ends in
the assertion on the port. -/
theorem ipremote_bad_port_example :
    (ipremote sampleLibc (sampleDns []) freshWorld "93.184.216.34" 70000 .zero 0).map Prod.fst
        = some .fatal ∧
      (ipremote sampleLibc (sampleDns []) freshWorld "93.184.216.34" 70000 .zero 0).map Prod.fst
        ≠ some (.err .EINVAL) := by
  decide

/-- The same on every input: for every name, mode, deadline, state of the
DNS library and every port outside 0..65535, the literal parser fails with
`EINVAL`, and `ipremote` does not return it: it goes on to the DNS path and
ends in a fatal assertion (a constructor assertion, or the one on the
port). -/
theorem ipremote_bad_port_fatal (L : Libc) (D : Dns) (w : World) (name : String) (port : Int)
    (mode : Mode) (deadline : Int) (h : port < 0 ∨ port > 65535) :
    dill_ipliteral L name port mode = .err .EINVAL ∧
      ∃ w1, ipremote L D w name port mode deadline = some (.fatal, w1) := by
  have hl := dill_ipliteral_bad_port L name port mode h
  refine ⟨hl, ?_⟩
  have hp : ¬ (port ≥ 0 ∧ port ≤ 0xffff) := by
    intro hc
    norm_num at hc
    omega
  unfold ipremote
  rw [hl]
  simp only
  rcases hc : ipremote_conf D w with ⟨b, w0⟩
  cases b
  · exact ⟨_, rfl⟩
  · simp only
    by_cases hr : D.res_open = false
    · rw [if_pos hr]
      exact ⟨_, rfl⟩
    · rw [if_neg hr, if_pos hp]
      exact ⟨_, rfl⟩

/-- Instance of `ipremote_bad_port_fatal` at port `-1`. -/
theorem ipremote_bad_port_fatal_witness :
    ((-1 : Int) < 0 ∨ (-1 : Int) > 65535) ∧
    dill_ipliteral sampleLibc "example.org" (-1) .IPADDR_PREF_IPV6 = .err .EINVAL ∧
      ∃ w1, ipremote sampleLibc (sampleDns []) freshWorld "example.org" (-1) .IPADDR_PREF_IPV6 100
        = some (.fatal, w1) :=
  ⟨by decide, ipremote_bad_port_fatal sampleLibc (sampleDns []) freshWorld "example.org" (-1)
    .IPADDR_PREF_IPV6 100 (by decide)⟩

/-! ## The wildcard address -/

/-- C5 as stated fails: with a null name and mode `IPADDR_IPV4` the record
is an IPv4 one, not an IPv6 one. -/
theorem wildcard_ipv4only_example :
    iplocal sampleLibc sampleIfconf none 8080 .IPADDR_IPV4 =
        .ok { sa_family := .AF_INET, port := htons sampleLibc 8080, addr := [0, 0, 0, 0] } ∧
      ¬ ∃ a, iplocal sampleLibc sampleIfconf none 8080 .IPADDR_IPV4 = .ok a ∧
          ipfamily a = .AF_INET6 := by
  have h : iplocal sampleLibc sampleIfconf none 8080 .IPADDR_IPV4 =
      .ok { sa_family := .AF_INET, port := htons sampleLibc 8080, addr := [0, 0, 0, 0] } := by
    decide
  refine ⟨h, ?_⟩
  rintro ⟨a, ha, hf⟩
  rw [h] at ha
  cases ha
  simp [ipfamily] at hf

/-- C5, amended: for every port in 0..65535 and each of the five modes,
`iplocal` with a null name succeeds; the address of the record is all
zeros (4 bytes for IPv4, 16 for IPv6), `ipport` gives the port back, and
the family is IPv4 for `Unspecified`, `IPv4Only` and `PreferIPv4`, IPv6 for
`IPv6Only` and `PreferIPv6`. -/
theorem wildcard_record (L : Libc) (os : Ifconf) (port : Int) (m : ResolutionMode)
    (h0 : 0 ≤ port) (h1 : port ≤ 65535) :
    ∃ a, iplocal L os none port m.toMode = .ok a ∧
      (∀ b ∈ a.addr, b = 0) ∧
      (ipport L a : Int) = port ∧
      ipfamily a =
        (match m with
          | .Unspecified | .IPv4Only | .PreferIPv4 => SaFamily.AF_INET
          | .IPv6Only | .PreferIPv6 => SaFamily.AF_INET6) ∧
      a.addr.length = (if ipfamily a = .AF_INET then 4 else 16) := by
  have hp : ¬ (port < 0 ∨ port > 0xffff) := by
    intro hc
    norm_num at hc
    omega
  cases m <;>
    simp only [iplocal, dill_ipany, if_neg hp, ResolutionMode.toMode] <;>
    refine ⟨_, rfl, ?_, ipport_stored L port h0 h1 _ rfl, ?_, ?_⟩ <;>
    simp [ipfamily, INADDR_ANY, in6addr_any]

/-- Instance of `wildcard_record`: null name, port 8080, `Unspecified`. -/
theorem wildcard_record_witness :
    ((0 : Int) ≤ 8080 ∧ (8080 : Int) ≤ 65535) ∧
    ∃ a, iplocal sampleLibc sampleIfconf none 8080 ResolutionMode.Unspecified.toMode = .ok a ∧
      (∀ b ∈ a.addr, b = 0) ∧
      (ipport sampleLibc a : Int) = 8080 ∧
      ipfamily a =
        (match ResolutionMode.Unspecified with
          | .Unspecified | .IPv4Only | .PreferIPv4 => SaFamily.AF_INET
          | .IPv6Only | .PreferIPv6 => SaFamily.AF_INET6) ∧
      a.addr.length = (if ipfamily a = .AF_INET then 4 else 16) :=
  ⟨by decide, wildcard_record sampleLibc sampleIfconf 8080 .Unspecified (by decide) (by decide)⟩

/-! ## Literals -/

theorem acceptingFamily_inet (L : Libc) (name : String) (mode : Mode) (f : SaFamily)
    (h : acceptingFamily L name mode = some f) : f = .AF_INET ∨ f = .AF_INET6 := by
  have hm := List.mem_of_find?_eq_some h
  cases mode <;> simp [attempted] at hm <;> tauto

/-- C6: when the literal parser accepts `name` under `mode` for `port`
(which it does only for a port in 0..65535), `ipremote` returns that record
at once, whatever the deadline and the DNS library: the process state is
the one it started from (no configuration loaded, no resolver or query
opened, no descriptor wait).  The family of the record is the first
attempted family whose `inet_pton` accepts the name, its address is what
`inet_pton` stored, and `ipport` gives the port back. -/
theorem ipremote_literal (L : Libc) (D : Dns) (w : World) (name : String) (port : Int)
    (mode : Mode) (deadline : Int) (a : ipaddr)
    (h : dill_ipliteral L name port mode = .ok a) :
    ipremote L D w name port mode deadline = some (.ok a, w) ∧
      (0 ≤ port ∧ port ≤ 65535) ∧
      acceptingFamily L name mode = some (ipfamily a) ∧
      a.addr = (L.inet_pton (ipfamily a) name).2 ∧
      (ipport L a : Int) = port := by
  obtain ⟨hp, hf, ha, hs⟩ := dill_ipliteral_ok L name port mode a h
  refine ⟨?_, hp, hf, ha, ipport_stored L port hp.1 hp.2 a hs⟩
  unfold ipremote
  rw [h]

/-- Instance of `ipremote_literal`: `93.184.216.34`, port 443, mode `0`,
no deadline. -/
theorem ipremote_literal_witness :
    dill_ipliteral sampleLibc "93.184.216.34" 443 .zero =
        .ok { sa_family := .AF_INET, port := htons sampleLibc 443, addr := [93, 184, 216, 34] } ∧
      ipremote sampleLibc (sampleDns []) freshWorld "93.184.216.34" 443 .zero (-1) =
        some (.ok { sa_family := .AF_INET, port := htons sampleLibc 443,
                    addr := [93, 184, 216, 34] }, freshWorld) :=
  ⟨by decide,
    (ipremote_literal sampleLibc (sampleDns []) freshWorld "93.184.216.34" 443 .zero (-1)
      { sa_family := .AF_INET, port := htons sampleLibc 443, addr := [93, 184, 216, 34] }
      (by decide)).1⟩

/-- C8: when the literal parser accepts `name` under `mode` for `port`,
`iplocal` succeeds with that record on every host; `ipport` of the result
is the port, `ipfamily` is the first attempted family whose `inet_pton`
accepts the name, and `ipaddrstr` is `inet_ntop` of exactly the bytes that
`inet_pton` stored for the name. -/
theorem iplocal_literal_roundtrip (L : Libc) (os : Ifconf) (name : String) (port : Int)
    (mode : Mode) (a : ipaddr) (h : dill_ipliteral L name port mode = .ok a) :
    iplocal L os (some name) port mode = .ok a ∧
      (ipport L a : Int) = port ∧
      acceptingFamily L name mode = some (ipfamily a) ∧
      ipaddrstr L a = L.inet_ntop (ipfamily a) (L.inet_pton (ipfamily a) name).2 := by
  obtain ⟨hp, hf, ha, hs⟩ := dill_ipliteral_ok L name port mode a h
  refine ⟨?_, ipport_stored L port hp.1 hp.2 a hs, hf, ?_⟩
  · unfold iplocal
    simp only
    rw [h]
  · unfold ipaddrstr ipfamily
    rw [← ha]
    rcases acceptingFamily_inet L name mode _ hf with h4 | h6
    · simp [h4]
    · simp [h6]

/-- Instance of `iplocal_literal_roundtrip`: `127.0.0.1`, port 8080, under
`IPADDR_PREF_IPV6`; the text given back is `127.0.0.1`. -/
theorem iplocal_literal_roundtrip_witness :
    dill_ipliteral sampleLibc "127.0.0.1" 8080 .IPADDR_PREF_IPV6 =
        .ok { sa_family := .AF_INET, port := htons sampleLibc 8080, addr := [127, 0, 0, 1] } ∧
      ipaddrstr sampleLibc
          { sa_family := .AF_INET, port := htons sampleLibc 8080, addr := [127, 0, 0, 1] } =
        sampleLibc.inet_ntop .AF_INET (sampleLibc.inet_pton .AF_INET "127.0.0.1").2 ∧
      sampleLibc.inet_ntop .AF_INET (sampleLibc.inet_pton .AF_INET "127.0.0.1").2 =
        some "127.0.0.1" :=
  ⟨by decide,
    (iplocal_literal_roundtrip sampleLibc sampleIfconf "127.0.0.1" 8080 .IPADDR_PREF_IPV6
      { sa_family := .AF_INET, port := htons sampleLibc 8080, addr := [127, 0, 0, 1] }
      (by decide)).2.2.2,
    by decide⟩

/-! ## The preference table -/

/-- C4: for every combination of candidates and each of the five modes, the
switch and the chain of tests that end `iplocal` keep the family given by
the table of section 4.2 (the record returned is the IPv4 candidate with
the port overwritten when the table says IPv4, the IPv6 candidate when it
says IPv6, and the call fails with `ENODEV` when it says none), and the
switch and chain that end `ipremote` keep the same family on the same
inputs (failing with `EADDRNOTAVAIL` when the table says none). -/
theorem family_preference_table (L : Libc) (port : Int) (haveIPv4 haveIPv6 : Bool)
    (m : ResolutionMode) (n4 n6 : String) (s4 s6 : ipaddr) (e4 e6 : addrinfo) (w : World) :
    iplocal_choose L port m.toMode
        (if haveIPv4 then some { ifa_name := n4, ifa_addr := some s4 } else none)
        (if haveIPv6 then some { ifa_name := n6, ifa_addr := some s6 } else none) =
      (match FamilyPreferencePolicy haveIPv4 haveIPv6 m with
        | some .IPv4 => .ok { s4 with port := htons L (uint16 port) }
        | some .IPv6 => .ok { s6 with port := htons L (uint16 port) }
        | none => .err .ENODEV) ∧
    (ipremote_choose L port m.toMode
        (if haveIPv4 then some e4 else none) (if haveIPv6 then some e6 else none) w).1 =
      (match FamilyPreferencePolicy haveIPv4 haveIPv6 m with
        | some .IPv4 => .ok { e4.ai_addr with port := htons L (uint16 port) }
        | some .IPv6 => .ok { e6.ai_addr with port := htons L (uint16 port) }
        | none => .err .EADDRNOTAVAIL) := by
  cases m <;> cases haveIPv4 <;> cases haveIPv6 <;>
    simp [iplocal_choose, ipremote_choose, FamilyPreferencePolicy, ResolutionMode.toMode]

/-! ## The interface scan -/

theorem isCandidate_iff (name : String) (fam : SaFamily) (e : ifaddrs) :
    isCandidate name fam e = true ↔
      e.ifa_name = name ∧ ∃ sa, e.ifa_addr = some sa ∧ sa.sa_family = fam := by
  simp [isCandidate, ifaddrs.family]

theorem iplocal_scan_inet (name : String) (e : ifaddrs) (next : List ifaddrs)
    (ipv4 ipv6 : Option ifaddrs) (h : isCandidate name .AF_INET e = true) :
    iplocal_scan name (e :: next) ipv4 ipv6 =
      if ipv4.isSome then none
      else if ipv6.isSome then some (some e, ipv6)
      else iplocal_scan name next (some e) ipv6 := by
  obtain ⟨hn, sa, hsa, hf⟩ := (isCandidate_iff name _ e).1 h
  rw [iplocal_scan, hsa]
  simp only [hn, ne_eq, not_true_eq_false, if_false, hf]
  by_cases h4 : ipv4.isSome = true
  · simp [h4]
  · by_cases h6 : ipv6.isSome = true <;> simp [h4, h6]

theorem iplocal_scan_inet6 (name : String) (e : ifaddrs) (next : List ifaddrs)
    (ipv4 ipv6 : Option ifaddrs) (h : isCandidate name .AF_INET6 e = true) :
    iplocal_scan name (e :: next) ipv4 ipv6 =
      if ipv6.isSome then none
      else if ipv4.isSome then some (ipv4, some e)
      else iplocal_scan name next ipv4 (some e) := by
  obtain ⟨hn, sa, hsa, hf⟩ := (isCandidate_iff name _ e).1 h
  rw [iplocal_scan, hsa]
  simp only [hn, ne_eq, not_true_eq_false, if_false, hf]
  by_cases h6 : ipv6.isSome = true
  · simp [h6]
  · by_cases h4 : ipv4.isSome = true <;> simp [h4, h6]

theorem iplocal_scan_skip (name : String) (e : ifaddrs) (next : List ifaddrs)
    (ipv4 ipv6 : Option ifaddrs) (h : isInetCandidate name e = false)
    (hinv : ¬ (ipv4.isSome = true ∧ ipv6.isSome = true)) :
    iplocal_scan name (e :: next) ipv4 ipv6 = iplocal_scan name next ipv4 ipv6 := by
  simp only [isInetCandidate, isCandidate, ifaddrs.family, Bool.or_eq_false_iff,
    Bool.and_eq_false_iff, decide_eq_false_iff_not] at h
  rw [iplocal_scan]
  cases hsa : e.ifa_addr with
  | none => rfl
  | some sa =>
    simp only
    by_cases hn : e.ifa_name = name
    · simp only [hn, ne_eq, not_true_eq_false, if_false]
      rw [hsa] at h
      simp only [hn, not_true_eq_false, Option.map_some', Option.some.injEq, false_or] at h
      cases hf : sa.sa_family with
      | AF_INET => exact absurd hf h.1
      | AF_INET6 => exact absurd hf h.2
      | other n => simp only [if_neg hinv]
    · simp [hn]

theorem iplocal_scan_filter (name : String) (l : List ifaddrs) :
    ∀ ipv4 ipv6 : Option ifaddrs, ¬ (ipv4.isSome = true ∧ ipv6.isSome = true) →
      iplocal_scan name l ipv4 ipv6 =
        iplocal_scan name (l.filter (isInetCandidate name)) ipv4 ipv6 := by
  induction l with
  | nil => intro _ _ _; rfl
  | cons e next ih =>
    intro ipv4 ipv6 hinv
    cases hr : isInetCandidate name e with
    | false =>
      rw [iplocal_scan_skip name e next ipv4 ipv6 hr hinv, List.filter_cons_of_neg (by simp [hr])]
      exact ih ipv4 ipv6 hinv
    | true =>
      rw [List.filter_cons_of_pos hr]
      simp only [isInetCandidate, Bool.or_eq_true] at hr
      rcases hr with h4 | h6
      · rw [iplocal_scan_inet name e _ ipv4 ipv6 h4, iplocal_scan_inet name e _ ipv4 ipv6 h4]
        by_cases c4 : ipv4.isSome = true
        · simp [c4]
        · by_cases c6 : ipv6.isSome = true
          · simp [c4, c6]
          · simp only [c4, c6, if_false]
            exact ih _ _ (by simp [c6])
      · rw [iplocal_scan_inet6 name e _ ipv4 ipv6 h6, iplocal_scan_inet6 name e _ ipv4 ipv6 h6]
        by_cases c6 : ipv6.isSome = true
        · simp [c6]
        · by_cases c4 : ipv4.isSome = true
          · simp [c4, c6]
          · simp only [c4, c6, if_false]
            exact ih _ _ (by simp [c4])

theorem isCandidate_family (name : String) (fam : SaFamily) (e : ifaddrs)
    (h : isCandidate name fam e = true) : e.family = some fam := by
  simp only [isCandidate, Bool.and_eq_true, decide_eq_true_eq] at h
  exact h.2

/-- The result of the loop of `iplocal`, by the entries named `name` that
have an IPv4 or IPv6 address, in list order: only the first two matter. -/
theorem iplocal_scan_cases (name : String) (l : List ifaddrs) :
    (l.filter (isInetCandidate name) = [] ∧ iplocal_scan name l none none = some (none, none)) ∨
    (∃ a, l.filter (isInetCandidate name) = [a] ∧ isCandidate name .AF_INET a = true ∧
      iplocal_scan name l none none = some (some a, none)) ∨
    (∃ a, l.filter (isInetCandidate name) = [a] ∧ isCandidate name .AF_INET6 a = true ∧
      iplocal_scan name l none none = some (none, some a)) ∨
    (∃ a b rest, l.filter (isInetCandidate name) = a :: b :: rest ∧
      isCandidate name .AF_INET a = true ∧ isCandidate name .AF_INET6 b = true ∧
      iplocal_scan name l none none = some (some a, some b)) ∨
    (∃ a b rest, l.filter (isInetCandidate name) = a :: b :: rest ∧
      isCandidate name .AF_INET6 a = true ∧ isCandidate name .AF_INET b = true ∧
      iplocal_scan name l none none = some (some b, some a)) ∨
    (∃ fam a b rest, l.filter (isInetCandidate name) = a :: b :: rest ∧
      (fam = .AF_INET ∨ fam = .AF_INET6) ∧
      isCandidate name fam a = true ∧ isCandidate name fam b = true ∧
      iplocal_scan name l none none = none) := by
  rw [iplocal_scan_filter name l none none (by simp)]
  have hF : ∀ e ∈ l.filter (isInetCandidate name),
      isCandidate name .AF_INET e = true ∨ isCandidate name .AF_INET6 e = true := by
    intro e he
    have := (List.mem_filter.1 he).2
    simpa [isInetCandidate] using this
  generalize l.filter (isInetCandidate name) = F at hF
  match F, hF with
  | [], _ => exact Or.inl ⟨rfl, rfl⟩
  | [a], hF =>
    rcases hF a (by simp) with h | h
    · refine Or.inr (Or.inl ⟨a, rfl, h, ?_⟩)
      rw [iplocal_scan_inet name a _ _ _ h]
      rfl
    · refine Or.inr (Or.inr (Or.inl ⟨a, rfl, h, ?_⟩))
      rw [iplocal_scan_inet6 name a _ _ _ h]
      rfl
  | a :: b :: rest, hF =>
    rcases hF a (by simp) with ha | ha <;> rcases hF b (by simp) with hb | hb
    · refine Or.inr (Or.inr (Or.inr (Or.inr (Or.inr
        ⟨.AF_INET, a, b, rest, rfl, Or.inl rfl, ha, hb, ?_⟩))))
      rw [iplocal_scan_inet name a _ _ _ ha]
      simp [iplocal_scan_inet name b _ _ _ hb]
    · refine Or.inr (Or.inr (Or.inr (Or.inl ⟨a, b, rest, rfl, ha, hb, ?_⟩)))
      rw [iplocal_scan_inet name a _ _ _ ha]
      simp [iplocal_scan_inet6 name b _ _ _ hb]
    · refine Or.inr (Or.inr (Or.inr (Or.inr (Or.inl ⟨a, b, rest, rfl, ha, hb, ?_⟩))))
      rw [iplocal_scan_inet6 name a _ _ _ ha]
      simp [iplocal_scan_inet name b _ _ _ hb]
    · refine Or.inr (Or.inr (Or.inr (Or.inr (Or.inr
        ⟨.AF_INET6, a, b, rest, rfl, Or.inr rfl, ha, hb, ?_⟩))))
      rw [iplocal_scan_inet6 name a _ _ _ ha]
      simp [iplocal_scan_inet6 name b _ _ _ hb]

/-- The end of `iplocal` does not abort and does not crash when the mode is
one of the five and the candidates have an address. -/
theorem iplocal_choose_ne_fatal (L : Libc) (port : Int) (m : ResolutionMode)
    (ipv4 ipv6 : Option ifaddrs)
    (h4 : ∀ e, ipv4 = some e → e.ifa_addr ≠ none) (h6 : ∀ e, ipv6 = some e → e.ifa_addr ≠ none) :
    iplocal_choose L port m.toMode ipv4 ipv6 ≠ .fatal := by
  cases ipv4 with
  | none =>
    cases ipv6 with
    | none => cases m <;> simp [iplocal_choose, ResolutionMode.toMode]
    | some e6 =>
      obtain ⟨s6, hs6⟩ := Option.ne_none_iff_exists'.1 (h6 e6 rfl)
      cases m <;> simp [iplocal_choose, ResolutionMode.toMode, hs6]
  | some e4 =>
    obtain ⟨s4, hs4⟩ := Option.ne_none_iff_exists'.1 (h4 e4 rfl)
    cases ipv6 with
    | none => cases m <;> simp [iplocal_choose, ResolutionMode.toMode, hs4]
    | some e6 =>
      obtain ⟨s6, hs6⟩ := Option.ne_none_iff_exists'.1 (h6 e6 rfl)
      cases m <;> simp [iplocal_choose, ResolutionMode.toMode, hs4, hs6]

theorem isCandidate_addr (name : String) (fam : SaFamily) (e : ifaddrs)
    (h : isCandidate name fam e = true) : e.ifa_addr ≠ none := by
  obtain ⟨_, sa, hsa, _⟩ := (isCandidate_iff name fam e).1 h
  simp [hsa]

theorem iplocal_after_literal (L : Libc) (os : Ifconf) (name : String) (port : Int) (mode : Mode)
    (e : Errno) (hlit : dill_ipliteral L name port mode = .err e) (hrc : os.rc = 0)
    (hne : os.ifaces ≠ []) :
    iplocal L os (some name) port mode =
      match iplocal_scan name os.ifaces none none with
      | none => .fatal
      | some (ipv4, ipv6) => iplocal_choose L port mode ipv4 ipv6 := by
  unfold iplocal
  simp only
  rw [hlit]
  simp [hrc, hne]

/-- C10 as stated fails: `eth0` has two IPv4 addresses, the second one
listed after its IPv6 address; the loop has stopped before it reaches the
second IPv4 entry and `iplocal` returns success. -/
theorem iplocal_late_duplicate_example :
    dill_ipliteral sampleLibc "eth0" 80 .zero = .err .EINVAL ∧
      (twoInetIfconf.ifaces.filter (isCandidate "eth0" .AF_INET)).length = 2 ∧
      iplocal sampleLibc twoInetIfconf (some "eth0") 80 .zero =
        .ok { sa_family := .AF_INET, port := htons sampleLibc 80, addr := [10, 0, 0, 2] } := by
  decide

/-- C10, amended: for every name the literal parser rejects, each of the
five modes and every non-empty interface list obtained from `getifaddrs`,
`iplocal` ends in a fatal assertion exactly when the first two entries
named `name` that have an IPv4 or IPv6 address are of the same family.  A
second entry of a family that comes after the first IPv4 and the first IPv6
entry is not looked at. -/
theorem iplocal_fatal_iff (L : Libc) (os : Ifconf) (name : String) (port : Int)
    (m : ResolutionMode) (hlit : dill_ipliteral L name port m.toMode = .err .EINVAL)
    (hrc : os.rc = 0) (hne : os.ifaces ≠ []) :
    iplocal L os (some name) port m.toMode = .fatal ↔
      ∃ a b rest, os.ifaces.filter (isInetCandidate name) = a :: b :: rest ∧
        a.family = b.family := by
  rw [iplocal_after_literal L os name port _ _ hlit hrc hne]
  rcases iplocal_scan_cases name os.ifaces with
    ⟨hF, hs⟩ | ⟨a, hF, ha, hs⟩ | ⟨a, hF, ha, hs⟩ | ⟨a, b, rest, hF, ha, hb, hs⟩ |
    ⟨a, b, rest, hF, ha, hb, hs⟩ | ⟨fam, a, b, rest, hF, _, ha, hb, hs⟩
  · rw [hs, hF]
    simp only
    constructor
    · intro h
      exact absurd h (iplocal_choose_ne_fatal L port m none none (by simp) (by simp))
    · rintro ⟨_, _, _, h, _⟩
      simp at h
  · rw [hs, hF]
    simp only
    constructor
    · intro h
      refine absurd h (iplocal_choose_ne_fatal L port m _ _ ?_ (by simp))
      intro e he
      cases he
      exact isCandidate_addr _ _ _ ha
    · rintro ⟨_, _, _, h, _⟩
      simp at h
  · rw [hs, hF]
    simp only
    constructor
    · intro h
      refine absurd h (iplocal_choose_ne_fatal L port m _ _ (by simp) ?_)
      intro e he
      cases he
      exact isCandidate_addr _ _ _ ha
    · rintro ⟨_, _, _, h, _⟩
      simp at h
  · rw [hs, hF]
    simp only
    constructor
    · intro h
      refine absurd h (iplocal_choose_ne_fatal L port m _ _ ?_ ?_)
      · intro e he
        cases he
        exact isCandidate_addr _ _ _ ha
      · intro e he
        cases he
        exact isCandidate_addr _ _ _ hb
    · rintro ⟨a1, b1, _, h, hfam⟩
      simp only [List.cons.injEq] at h
      obtain ⟨rfl, rfl, _⟩ := h
      rw [isCandidate_family _ _ _ ha, isCandidate_family _ _ _ hb] at hfam
      simp at hfam
  · rw [hs, hF]
    simp only
    constructor
    · intro h
      refine absurd h (iplocal_choose_ne_fatal L port m _ _ ?_ ?_)
      · intro e he
        cases he
        exact isCandidate_addr _ _ _ hb
      · intro e he
        cases he
        exact isCandidate_addr _ _ _ ha
    · rintro ⟨a1, b1, _, h, hfam⟩
      simp only [List.cons.injEq] at h
      obtain ⟨rfl, rfl, _⟩ := h
      rw [isCandidate_family _ _ _ ha, isCandidate_family _ _ _ hb] at hfam
      simp at hfam
  · rw [hs, hF]
    simp only [true_iff]
    exact ⟨a, b, rest, rfl, by
      rw [isCandidate_family _ _ _ ha, isCandidate_family _ _ _ hb]⟩

/-- Instance of `iplocal_fatal_iff`: `eth0` with two IPv4 addresses in a
row. -/
theorem iplocal_fatal_iff_witness :
    (dill_ipliteral sampleLibc "eth0" 80 ResolutionMode.PreferIPv6.toMode = .err .EINVAL ∧
      twoInet4Ifconf.rc = 0 ∧ twoInet4Ifconf.ifaces ≠ []) ∧
    iplocal sampleLibc twoInet4Ifconf (some "eth0") 80 ResolutionMode.PreferIPv6.toMode = .fatal :=
  ⟨by decide,
    (iplocal_fatal_iff sampleLibc twoInet4Ifconf "eth0" 80 .PreferIPv6 (by decide) (by decide)
      (by decide)).2 ⟨_, _, _, rfl, rfl⟩⟩

theorem filter_isCandidate_two (name : String) (fam : SaFamily) (l : List ifaddrs)
    (a b : ifaddrs) (rest : List ifaddrs)
    (hF : l.filter (isInetCandidate name) = a :: b :: rest)
    (hfam : fam = .AF_INET ∨ fam = .AF_INET6)
    (ha : isCandidate name fam a = true) (hb : isCandidate name fam b = true) :
    2 ≤ (l.filter (isCandidate name fam)).length := by
  have hsub : l.filter (isCandidate name fam) =
      (l.filter (isInetCandidate name)).filter (isCandidate name fam) := by
    rw [List.filter_filter]
    apply List.filter_congr
    intro e _
    rcases hfam with rfl | rfl <;> cases h : isCandidate name _ e <;> simp [isInetCandidate, h]
  rw [hsub, hF, List.filter_cons_of_pos ha, List.filter_cons_of_pos hb]
  simp

/-- C7 as stated fails on the empty interface list: `getifaddrs` succeeds
and leaves a null list, no IPv4 literal is parsed from `::1`, and `iplocal`
ends in `dill_assert(ifaces)` instead of failing with `ENODEV`. -/
theorem iplocal_empty_list_example :
    dill_ipliteral sampleLibc "::1" 80 .IPADDR_IPV4 = .err .EINVAL ∧
      iplocal sampleLibc { rc := 0, ifaces := [] } (some "::1") 80 .IPADDR_IPV4 = .fatal ∧
      iplocal sampleLibc { rc := 0, ifaces := [] } (some "::1") 80 .IPADDR_IPV4 ≠
        .err .ENODEV := by
  decide

/-- C7, amended: for every name the literal parser rejects under the mode,
each of the five modes, and every non-empty interface list obtained from
`getifaddrs` that has at most one entry named `name` for each of IPv4 and
IPv6 and no entry named `name` of a family the mode allows (IPv4 for
`IPv4Only`, IPv6 for `IPv6Only`, both otherwise), `iplocal` fails with
`ENODEV`; the `EINVAL` of the literal parser is not what the caller
gets. -/
theorem iplocal_no_device (L : Libc) (os : Ifconf) (name : String) (port : Int)
    (m : ResolutionMode) (hlit : dill_ipliteral L name port m.toMode = .err .EINVAL)
    (hrc : os.rc = 0) (hne : os.ifaces ≠ [])
    (hone : ∀ fam, fam = .AF_INET ∨ fam = .AF_INET6 →
      (os.ifaces.filter (isCandidate name fam)).length ≤ 1)
    (hnone : ∀ fam ∈ attempted m.toMode, ∀ e ∈ os.ifaces, isCandidate name fam e = false) :
    iplocal L os (some name) port m.toMode = .err .ENODEV := by
  have hmem : ∀ a rest, os.ifaces.filter (isInetCandidate name) = a :: rest → a ∈ os.ifaces := by
    intro a rest h
    have : a ∈ os.ifaces.filter (isInetCandidate name) := by simp [h]
    exact (List.mem_filter.1 this).1
  have hmem2 : ∀ a b rest, os.ifaces.filter (isInetCandidate name) = a :: b :: rest →
      b ∈ os.ifaces := by
    intro a b rest h
    have : b ∈ os.ifaces.filter (isInetCandidate name) := by simp [h]
    exact (List.mem_filter.1 this).1
  rw [iplocal_after_literal L os name port _ _ hlit hrc hne]
  rcases iplocal_scan_cases name os.ifaces with
    ⟨_, hs⟩ | ⟨a, hF, ha, hs⟩ | ⟨a, hF, ha, hs⟩ | ⟨a, b, rest, hF, ha, hb, hs⟩ |
    ⟨a, b, rest, hF, ha, hb, hs⟩ | ⟨fam, a, b, rest, hF, hfam, ha, hb, hs⟩
  · rw [hs]
    cases m <;> rfl
  · rw [hs]
    have hn := fun h => hnone .AF_INET h a (hmem a _ hF)
    cases m <;> simp [attempted, ResolutionMode.toMode, ha] at hn
    simp [iplocal_choose, ResolutionMode.toMode]
  · rw [hs]
    have hn := fun h => hnone .AF_INET6 h a (hmem a _ hF)
    cases m <;> simp [attempted, ResolutionMode.toMode, ha] at hn
    simp [iplocal_choose, ResolutionMode.toMode]
  · have hn4 := fun h => hnone .AF_INET h a (hmem a _ hF)
    have hn6 := fun h => hnone .AF_INET6 h b (hmem2 a b _ hF)
    cases m <;> simp [attempted, ResolutionMode.toMode, ha, hb] at hn4 hn6
  · have hn6 := fun h => hnone .AF_INET6 h a (hmem a _ hF)
    have hn4 := fun h => hnone .AF_INET h b (hmem2 a b _ hF)
    cases m <;> simp [attempted, ResolutionMode.toMode, ha, hb] at hn4 hn6
  · have h2 := filter_isCandidate_two name fam os.ifaces a b rest hF hfam ha hb
    have h1 := hone fam hfam
    omega

/-- Instance of `iplocal_no_device`: `iplocal("::1", 80, IPADDR_IPV4)` on
a host with `lo` and `eth0`. -/
theorem iplocal_no_device_witness :
    (dill_ipliteral sampleLibc "::1" 80 ResolutionMode.IPv4Only.toMode = .err .EINVAL ∧
      sampleIfconf.rc = 0 ∧ sampleIfconf.ifaces ≠ []) ∧
    iplocal sampleLibc sampleIfconf (some "::1") 80 ResolutionMode.IPv4Only.toMode =
      .err .ENODEV :=
  ⟨by decide,
    iplocal_no_device sampleLibc sampleIfconf "::1" 80 .IPv4Only (by decide) (by decide)
      (by decide)
      (by intro fam h; rcases h with rfl | rfl <;> decide)
      (by
        intro fam h
        have hf : fam = .AF_INET := by simpa [attempted, ResolutionMode.toMode] using h
        subst hf
        decide)⟩

/-! ## The DNS loop -/

/-- On a sequence of outcomes that go on, closed by `ENOENT`, the loop of
`ipremote` is left with the first IPv4 and the first IPv6 entry of the
whole sequence (after the candidates it started with), also when it stops
early. -/
theorem ipremote_loop_done (deadline : Int) (rest : List NextEnt) (pre : List NextEnt) :
    ∀ (ipv4 ipv6 : Option addrinfo) (w : World),
      ¬ (ipv4.isSome = true ∧ ipv6.isSome = true) →
      (∀ o ∈ pre, goesOn o = true) →
      ∃ w1, ipremote_loop deadline (pre ++ .enoent :: rest) ipv4 ipv6 w =
        some (.done (ipv4.or (firstEntry .AF_INET pre)) (ipv6.or (firstEntry .AF_INET6 pre)),
          w1) := by
  induction pre with
  | nil =>
    intro ipv4 ipv6 w _ _
    exact ⟨w.log .dns_ai_nextent, by simp [ipremote_loop, firstEntry]⟩
  | cons o pre ih =>
    intro ipv4 ipv6 w hinv hpre
    have ho := hpre o (by simp)
    have hpre1 : ∀ o ∈ pre, goesOn o = true := fun x hx => hpre x (by simp [hx])
    cases o with
    | enoent => simp [goesOn] at ho
    | eagain fd rc errno =>
      simp only [goesOn, Bool.and_eq_true, decide_eq_true_eq] at ho
      obtain ⟨w1, h1⟩ := ih ipv4 ipv6
        (((w.log .dns_ai_nextent).log .dns_ai_pollfd).log (.fdin fd deadline) |>.log (.fdclean fd))
        hinv hpre1
      refine ⟨w1, ?_⟩
      have hrc : ¬ (rc < 0 ∧ errno = .ETIMEDOUT) := by omega
      simp only [List.cons_append, ipremote_loop, ho.1, ho.2, not_true_eq_false, if_false, hrc,
        firstEntry]
      exact h1
    | entry it =>
      cases it with
      | none =>
        obtain ⟨w1, h1⟩ := ih ipv4 ipv6 (w.log .dns_ai_nextent) hinv hpre1
        refine ⟨w1, ?_⟩
        simp only [List.cons_append, ipremote_loop, firstEntry, Option.isSome_none,
          Bool.false_eq_true, false_and, and_false, if_false, if_neg hinv]
        exact h1
      | some e =>
        cases hf : e.ai_family with
        | AF_INET =>
          cases ipv4 with
          | some x =>
            have h6 : ipv6 = none := by
              cases ipv6 with
              | none => rfl
              | some y => exact absurd ⟨rfl, rfl⟩ hinv
            subst h6
            obtain ⟨w1, h1⟩ := ih (some x) none (w.log .dns_ai_nextent) (by simp) hpre1
            refine ⟨w1, ?_⟩
            simp [ipremote_loop, firstEntry, hf] at h1 ⊢
            exact h1
          | none =>
            cases ipv6 with
            | some y => exact ⟨w.log .dns_ai_nextent, by simp [ipremote_loop, firstEntry, hf]⟩
            | none =>
              obtain ⟨w1, h1⟩ := ih (some e) none (w.log .dns_ai_nextent) (by simp) hpre1
              refine ⟨w1, ?_⟩
              simp [ipremote_loop, firstEntry, hf] at h1 ⊢
              exact h1
        | AF_INET6 =>
          cases ipv6 with
          | some y =>
            have h4 : ipv4 = none := by
              cases ipv4 with
              | none => rfl
              | some x => exact absurd ⟨rfl, rfl⟩ hinv
            subst h4
            obtain ⟨w1, h1⟩ := ih none (some y) (w.log .dns_ai_nextent) (by simp) hpre1
            refine ⟨w1, ?_⟩
            simp [ipremote_loop, firstEntry, hf] at h1 ⊢
            exact h1
          | none =>
            cases ipv4 with
            | some x => exact ⟨w.log .dns_ai_nextent, by simp [ipremote_loop, firstEntry, hf]⟩
            | none =>
              obtain ⟨w1, h1⟩ := ih none (some e) (w.log .dns_ai_nextent) (by simp) hpre1
              refine ⟨w1, ?_⟩
              simp [ipremote_loop, firstEntry, hf] at h1 ⊢
              exact h1
        | other n =>
          obtain ⟨w1, h1⟩ := ih ipv4 ipv6 (w.log .dns_ai_nextent) hinv hpre1
          refine ⟨w1, ?_⟩
          simp only [List.cons_append, ipremote_loop, firstEntry, hf, Option.map_some',
            Option.some.injEq, reduceCtorEq, and_false, if_false, if_neg hinv]
          exact h1

theorem ipremote_conf_ok (D : Dns) (w : World)
    (hconf : w.dill_dns_conf = true ∨
      (D.resconf_local = true ∧ D.hosts_local = true ∧ D.hints_local = true)) :
    ∃ w0, ipremote_conf D w = (true, w0) := by
  unfold ipremote_conf
  by_cases hc : w.dill_dns_conf = true
  · exact ⟨w, by simp [hc]⟩
  · rcases hconf with h | ⟨h1, h2, h3⟩
    · exact absurd h hc
    · simp [hc, h1, h2, h3]

/-- What `ipremote` does once the literal parser has failed, the port is in
range and the DNS objects have been obtained: it runs the loop on the
outcomes of the query and ends with the choice of a family. -/
theorem ipremote_after_literal (L : Libc) (D : Dns) (w : World) (name : String) (port : Int)
    (mode : Mode) (deadline : Int) (e : Errno)
    (hlit : dill_ipliteral L name port mode = .err e)
    (h0 : 0 ≤ port) (h1 : port ≤ 65535)
    (hconf : w.dill_dns_conf = true ∨
      (D.resconf_local = true ∧ D.hosts_local = true ∧ D.hints_local = true))
    (hres : D.res_open = true) (hai : D.ai_open = true) :
    ipremote L D w name port mode deadline =
      match ipremote_loop deadline D.script none none
          ((((ipremote_conf D w).2.log .dns_res_open).log .dns_ai_open).log .dns_res_close) with
      | none => none
      | some (.ret r, w1) => some (r, w1)
      | some (.done ipv4 ipv6, w1) => some (ipremote_choose L port mode ipv4 ipv6 w1) := by
  obtain ⟨wc, hc⟩ := ipremote_conf_ok D w hconf
  have hp : port ≥ 0 ∧ port ≤ 0xffff := by
    norm_num
    omega
  unfold ipremote
  rw [hlit]
  simp only [hc, hres, hai, hp, and_self, not_true_eq_false, if_false, Bool.true_eq_false]

/-- C9: for every name the literal parser rejects, every port in 0..65535,
each of the five modes, and every sequence `pre` of query outcomes made of
entries and of would-block results whose waits succeed, followed by
`ENOENT` (and by anything after it), once the DNS objects have been
obtained `ipremote` returns, and its outcome is given by the table of
section 4.2 applied to (an IPv4 entry occurs in `pre`, an IPv6 entry occurs
in `pre`, mode): `EADDRNOTAVAIL` when the table keeps no family, and
otherwise success with the address record of the first entry of the kept
family in the whole of `pre`, its port field replaced by the given port.
The loop may stop before the end of `pre`; the outcome is the same. -/
theorem ipremote_query (L : Libc) (D : Dns) (w : World) (name : String) (port : Int)
    (m : ResolutionMode) (deadline : Int) (pre rest : List NextEnt)
    (hlit : dill_ipliteral L name port m.toMode = .err .EINVAL)
    (h0 : 0 ≤ port) (h1 : port ≤ 65535)
    (hconf : w.dill_dns_conf = true ∨
      (D.resconf_local = true ∧ D.hosts_local = true ∧ D.hints_local = true))
    (hres : D.res_open = true) (hai : D.ai_open = true)
    (hscript : D.script = pre ++ .enoent :: rest)
    (hpre : ∀ o ∈ pre, goesOn o = true) :
    ∃ r w1, ipremote L D w name port m.toMode deadline = some (r, w1) ∧
      (FamilyPreferencePolicy (firstEntry .AF_INET pre).isSome
          (firstEntry .AF_INET6 pre).isSome m = none → r = .err .EADDRNOTAVAIL) ∧
      (FamilyPreferencePolicy (firstEntry .AF_INET pre).isSome
          (firstEntry .AF_INET6 pre).isSome m = some .IPv4 →
        ∃ e, firstEntry .AF_INET pre = some e ∧
          r = .ok { e.ai_addr with port := htons L (uint16 port) }) ∧
      (FamilyPreferencePolicy (firstEntry .AF_INET pre).isSome
          (firstEntry .AF_INET6 pre).isSome m = some .IPv6 →
        ∃ e, firstEntry .AF_INET6 pre = some e ∧
          r = .ok { e.ai_addr with port := htons L (uint16 port) }) := by
  have hrun :=
    ipremote_after_literal L D w name port m.toMode deadline _ hlit h0 h1 hconf hres hai
  obtain ⟨w1, hloop⟩ := ipremote_loop_done deadline rest pre none none
    ((((ipremote_conf D w).2.log .dns_res_open).log .dns_ai_open).log .dns_res_close)
    (by simp) hpre
  rw [hrun, hscript, hloop]
  simp only [Option.none_or]
  refine ⟨_, _, rfl, ?_⟩
  cases h4 : firstEntry .AF_INET pre <;> cases h6 : firstEntry .AF_INET6 pre <;> cases m <;>
    simp [ipremote_choose, FamilyPreferencePolicy, ResolutionMode.toMode]

/-- Instance of `ipremote_query`: the query would block once, then yields
an IPv6 entry and two IPv4 entries; under mode `0` the first IPv4 entry is
returned, the loop having stopped before the second. -/
theorem ipremote_query_witness :
    (dill_ipliteral sampleLibc "example.org" 8080 ResolutionMode.Unspecified.toMode =
        .err .EINVAL ∧ (0 : Int) ≤ 8080 ∧ (8080 : Int) ≤ 65535) ∧
    (ipremote sampleLibc (sampleDns (sampleScript ++ [NextEnt.enoent])) freshWorld "example.org" 8080
        ResolutionMode.Unspecified.toMode (-1)).map Prod.fst =
      some (.ok { sa_family := .AF_INET, port := htons sampleLibc 8080,
                  addr := [93, 184, 216, 34] }) := by
  refine ⟨by decide, ?_⟩
  obtain ⟨r, w1, hrun, _, h4, _⟩ :=
    ipremote_query sampleLibc (sampleDns (sampleScript ++ [NextEnt.enoent])) freshWorld "example.org"
      8080 .Unspecified (-1) sampleScript [] (by decide) (by decide) (by decide)
      (Or.inr (by decide)) (by decide) (by decide) rfl (by decide)
  obtain ⟨e, he, hr⟩ := h4 (by decide)
  have he1 : firstEntry .AF_INET sampleScript =
      some { ai_family := .AF_INET,
             ai_addr := { sa_family := .AF_INET, port := 0, addr := [93, 184, 216, 34] } } := by
    decide
  rw [he1] at he
  cases he
  rw [hrun, hr]
  rfl

/-! ## Closing the query object -/

/-- C1, evaluated on the code: a query for `example.org` whose first turn
would block and whose wait times out.  `ipremote` returns `ETIMEDOUT`
having called `dns_ai_open` once and `dns_ai_close` not at all. -/
theorem ipremote_timeout_leak :
    ipremote sampleLibc (sampleDns [.eagain 5 (-1) .ETIMEDOUT]) freshWorld "example.org" 80
        .zero 100 =
      some (.err .ETIMEDOUT,
        { dill_dns_conf := true, dill_dns_hosts := true, dill_dns_hints := true,
          trace := [.dns_resconf_local, .dns_hosts_local, .dns_hints_local, .dns_res_open,
            .dns_ai_open, .dns_res_close, .dns_ai_nextent, .dns_ai_pollfd, .fdin 5 100,
            .fdclean 5] }) ∧
    [Event.dns_resconf_local, .dns_hosts_local, .dns_hints_local, .dns_res_open,
      .dns_ai_open, .dns_res_close, .dns_ai_nextent, .dns_ai_pollfd, .fdin 5 100,
      .fdclean 5].count .dns_ai_open = 1 ∧
    [Event.dns_resconf_local, .dns_hosts_local, .dns_hints_local, .dns_res_open,
      .dns_ai_open, .dns_res_close, .dns_ai_nextent, .dns_ai_pollfd, .fdin 5 100,
      .fdclean 5].count .dns_ai_close = 0 := by
  decide

theorem calls_log (w : World) (ev e : Event) :
    (w.log ev).calls e = w.calls e + (if ev = e then 1 else 0) := by
  unfold World.calls World.log
  by_cases h : ev = e
  · subst h
    simp
  · have h1 : (ev == e) = false := by simpa using h
    simp [h, List.count_cons, h1]

theorem ipremote_loop_calls (deadline : Int) (e : Event)
    (he1 : e = .dns_ai_open ∨ e = .dns_ai_close) (s : List NextEnt) :
    ∀ (ipv4 ipv6 : Option addrinfo) (w : World) (x : Loop) (w1 : World),
      ipremote_loop deadline s ipv4 ipv6 w = some (x, w1) → w1.calls e = w.calls e := by
  have hlog : ∀ (w : World) (ev : Event), ev ≠ .dns_ai_open → ev ≠ .dns_ai_close →
      (w.log ev).calls e = w.calls e := by
    intro w ev h1 h2
    rw [calls_log]
    rcases he1 with rfl | rfl
    · simp [h1]
    · simp [h2]
  induction s with
  | nil => intro _ _ _ _ _ h; simp [ipremote_loop] at h
  | cons o s ih =>
    intro ipv4 ipv6 w x w1 h
    cases o with
    | enoent =>
      simp only [ipremote_loop, Option.some.injEq, Prod.mk.injEq] at h
      rw [← h.2]
      simp [hlog]
    | eagain fd rc errno =>
      simp only [ipremote_loop] at h
      split_ifs at h <;>
        first
        | (simp only [Option.some.injEq, Prod.mk.injEq] at h
           rw [← h.2]
           simp [hlog])
        | (rw [ih _ _ _ _ _ h]
           simp [hlog])
    | entry it =>
      simp only [ipremote_loop] at h
      split_ifs at h <;>
        first
        | (simp only [Option.some.injEq, Prod.mk.injEq] at h
           rw [← h.2]
           simp [hlog])
        | (rw [ih _ _ _ _ _ h]
           simp [hlog])

theorem ipremote_conf_calls (D : Dns) (w : World) (e : Event)
    (he1 : e = .dns_ai_open ∨ e = .dns_ai_close) : (ipremote_conf D w).2.calls e = w.calls e := by
  obtain ⟨b1, b2, b3, _, _, _⟩ := D
  obtain ⟨c, _, _, _⟩ := w
  rcases he1 with rfl | rfl <;> cases b1 <;> cases b2 <;> cases b3 <;> cases c <;>
    simp [ipremote_conf, World.calls, World.log, List.count_cons]

theorem ipremote_loop_ret (deadline : Int) (s : List NextEnt) :
    ∀ (ipv4 ipv6 : Option addrinfo) (w : World) (r : Res ipaddr) (w1 : World),
      ipremote_loop deadline s ipv4 ipv6 w = some (.ret r, w1) →
        r = .fatal ∨ r = .err .ETIMEDOUT := by
  induction s with
  | nil => intro _ _ _ _ _ h; simp [ipremote_loop] at h
  | cons o s ih =>
    intro ipv4 ipv6 w r w1 h
    cases o with
    | enoent => simp [ipremote_loop] at h
    | eagain fd rc errno =>
      simp only [ipremote_loop] at h
      split_ifs at h <;>
        first
        | exact ih _ _ _ _ _ h
        | (simp only [Option.some.injEq, Prod.mk.injEq, Loop.ret.injEq] at h
           simp [← h.1])
    | entry it =>
      simp only [ipremote_loop] at h
      split_ifs at h <;>
        first
        | exact ih _ _ _ _ _ h
        | simp at h

theorem ipremote_choose_calls (L : Libc) (port : Int) (mode : Mode)
    (ipv4 ipv6 : Option addrinfo) (w : World) :
    (ipremote_choose L port mode ipv4 ipv6 w).1 ≠ .err .ETIMEDOUT ∧
      (ipremote_choose L port mode ipv4 ipv6 w).2.calls .dns_ai_open = w.calls .dns_ai_open ∧
      ((ipremote_choose L port mode ipv4 ipv6 w).1 ≠ .fatal →
        (ipremote_choose L port mode ipv4 ipv6 w).2.calls .dns_ai_close =
          w.calls .dns_ai_close + 1) := by
  cases mode <;> cases ipv4 <;> cases ipv6 <;> simp [ipremote_choose, calls_log]

/-- The calls on the query object in every run of `ipremote` that opens
one: `dns_ai_open` is called once; `dns_ai_close` is called once when the
run ends in success or in `EADDRNOTAVAIL`, and is not called when it ends
in `ETIMEDOUT`. -/
theorem ipremote_query_calls (L : Libc) (D : Dns) (w : World) (name : String) (port : Int)
    (mode : Mode) (deadline : Int) (e : Errno) (r : Res ipaddr) (w1 : World)
    (hlit : dill_ipliteral L name port mode = .err e)
    (h0 : 0 ≤ port) (h1 : port ≤ 65535)
    (hconf : w.dill_dns_conf = true ∨
      (D.resconf_local = true ∧ D.hosts_local = true ∧ D.hints_local = true))
    (hres : D.res_open = true) (hai : D.ai_open = true)
    (hrun : ipremote L D w name port mode deadline = some (r, w1)) :
    w1.calls .dns_ai_open = w.calls .dns_ai_open + 1 ∧
      (r = .err .ETIMEDOUT → w1.calls .dns_ai_close = w.calls .dns_ai_close) ∧
      ((∃ a, r = .ok a) ∨ r = .err .EADDRNOTAVAIL →
        w1.calls .dns_ai_close = w.calls .dns_ai_close + 1) := by
  rw [ipremote_after_literal L D w name port mode deadline e hlit h0 h1 hconf hres hai] at hrun
  have hopen : ((((ipremote_conf D w).2.log .dns_res_open).log .dns_ai_open).log
      .dns_res_close).calls .dns_ai_open = w.calls .dns_ai_open + 1 := by
    simp [calls_log, ipremote_conf_calls]
  have hclose : ((((ipremote_conf D w).2.log .dns_res_open).log .dns_ai_open).log
      .dns_res_close).calls .dns_ai_close = w.calls .dns_ai_close := by
    simp [calls_log, ipremote_conf_calls]
  cases hloop : ipremote_loop deadline D.script none none
      ((((ipremote_conf D w).2.log .dns_res_open).log .dns_ai_open).log .dns_res_close) with
  | none => rw [hloop] at hrun; simp at hrun
  | some res =>
    obtain ⟨x, w2⟩ := res
    rw [hloop] at hrun
    have c1 := ipremote_loop_calls deadline .dns_ai_open (Or.inl rfl) _ _ _ _ _ _ hloop
    have c2 := ipremote_loop_calls deadline .dns_ai_close (Or.inr rfl) _ _ _ _ _ _ hloop
    cases x with
    | ret r2 =>
      simp only [Option.some.injEq, Prod.mk.injEq] at hrun
      obtain ⟨rfl, rfl⟩ := hrun
      refine ⟨by rw [c1, hopen], fun _ => by rw [c2, hclose], ?_⟩
      rintro (⟨a, ha⟩ | ha) <;>
        rcases ipremote_loop_ret deadline _ _ _ _ _ _ hloop with h | h <;>
        rw [h] at ha <;> simp at ha
    | done ipv4 ipv6 =>
      simp only [Option.some.injEq] at hrun
      obtain ⟨n1, n2, n3⟩ := ipremote_choose_calls L port mode ipv4 ipv6 w2
      rw [hrun] at n1 n2 n3
      simp only at n1 n2 n3
      refine ⟨by rw [n2, c1, hopen], fun h => absurd h n1, ?_⟩
      rintro (⟨a, ha⟩ | ha)
      · rw [n3 (by simp [ha]), c2, hclose]
      · rw [n3 (by simp [ha]), c2, hclose]

end Dillsocks
